import Mathlib

/-!
Shallow embedding of `src/NarioJ.cpp`.

The program reads two sequences of doubles from standard input (sizes
validated and clamped to 10), concatenates them, selection-sorts the
merged sequence in descending order in place, and prints it.

Modelling choices:
  - element values are rationals: every comparison the program performs on
    finite doubles is order-theoretic, and the spec leaves non-finite
    values unspecified;
  - standard input is a list of `Token`s, one per `cin >>` read attempt;
    `asInt`/`asDouble` is `none` when that read would set the fail bit,
    `some v` when it parses as the requested type;
  - console output is accumulated as a `String`; the textual rendering of
    a double by `operator<<` is an abstract parameter `render`;
  - a run that exhausts the token list (the program would block forever
    waiting for input) is `none`.
-/

namespace NarioJ

/-- One standard-input read attempt: how it parses as an int (for
`cin >> size`) and as a double (for `cin >> input`). -/
structure Token where
  asInt : Option Int
  asDouble : Option ℚ

/-- Models `vector<double>` indexing `arr[i]`; every index the source uses is
in bounds, so the default is irrelevant there. -/
def dget (l : List ℚ) (i : Nat) : ℚ := l.getD i 0

/-- Text printed by `line()`: 67 asterisks and `endl`. -/
def bannerLine : String :=
  "*******************************************************************\n"

/-- Retry prompt inside `getValidSize`. -/
def sizeRetryPrompt : String := "Invalid input. Please enter a positive whole number: "

/-- Retry prompt inside `getValidNumber`. -/
def numberRetryPrompt : String := "Invalid input. Please enter a valid number: "

/-- Embeds `getValidSize` (lines 10-21): loop reading an int; on parse
failure or a value `<= 0`, discard the token, print the retry prompt and
read again; otherwise return the value. Result: the accepted value, the
remaining tokens, and the retry prompts printed along the way. -/
def getValidSize : List Token → Option (Int × List Token × String)
  | [] => none
  | t :: rest =>
    match t.asInt with
    | none => (getValidSize rest).map fun r => (r.1, r.2.1, sizeRetryPrompt ++ r.2.2)
    | some v =>
      if v ≤ 0 then
        (getValidSize rest).map fun r => (r.1, r.2.1, sizeRetryPrompt ++ r.2.2)
      else
        some (v, rest, "")

/-- Embeds `getValidNumber` (lines 23-34): loop reading a double; on parse
failure, discard the token, print the retry prompt and read again. -/
def getValidNumber : List Token → Option (ℚ × List Token × String)
  | [] => none
  | t :: rest =>
    match t.asDouble with
    | none => (getValidNumber rest).map fun r => (r.1, r.2.1, numberRetryPrompt ++ r.2.2)
    | some x => some (x, rest, "")

/-- Embeds the element-reading loop (lines 46-49 and 56-59): `k` iterations of
`getValidNumber` followed by `push_back`. -/
def readNumbers : Nat → List Token → Option (List ℚ × List Token × String)
  | 0, ts => some ([], ts, "")
  | k + 1, ts =>
    match getValidNumber ts with
    | none => none
    | some (x, ts1, o1) =>
      match readNumbers k ts1 with
      | none => none
      | some (xs, ts2, o2) => some (x :: xs, ts2, o1 ++ o2)

/-- Embeds the clamp `if (size1 > 10) size1 = 10;` (lines 44 and 54). -/
def clampSize (s : Int) : Int := if s > 10 then 10 else s

/-- Embeds a copy loop `for (int i = 0; i < sz; i++) dst.push_back(src[i]);`
(lines 61-62), starting at index `i`. -/
def copyFrom (src : List ℚ) (sz i : Nat) (dst : List ℚ) : List ℚ :=
  if i < sz then copyFrom src sz (i + 1) (dst ++ [dget src i]) else dst
termination_by sz - i
decreasing_by omega

/-- Embeds the inner scan of the selection sort (lines 69-73): starting from
the current `maxIndex` and scan position `j`, bump `maxIndex` to `j` whenever
`mergedArray[j] > mergedArray[maxIndex]`, until `j = n`. -/
def scanMax (arr : List ℚ) (n maxIndex j : Nat) : Nat :=
  if j < n then
    scanMax arr n (if dget arr j > dget arr maxIndex then j else maxIndex) (j + 1)
  else maxIndex
termination_by n - j
decreasing_by omega

/-- Embeds the swap (lines 74-76): `temp = arr[i]; arr[i] = arr[maxIndex];
arr[maxIndex] = temp;`. -/
def swapAt (arr : List ℚ) (i maxIndex : Nat) : List ℚ :=
  (arr.set i (dget arr maxIndex)).set maxIndex (dget arr i)

/-- Embeds the outer selection-sort loop (lines 67-77) from iteration `i` on:
while `i < n - 1`, find the max index of the tail, swap it to position `i`. -/
def selSortLoop (arr : List ℚ) (n i : Nat) : List ℚ :=
  if i < n - 1 then
    selSortLoop (swapAt arr i (scanMax arr n i (i + 1))) n (i + 1)
  else arr
termination_by n - 1 - i
decreasing_by omega

/-- The whole sorting pass of `main`: `n = mergedArray.size()`, then the
selection-sort loop from `i = 0`. -/
def sortDescending (arr : List ℚ) : List ℚ := selSortLoop arr arr.length 0

/-- Embeds the print loop (lines 81-83): `cout << mergedArray[i] << " ";`
for `i` from `i` up to `n`. -/
def printFrom (render : ℚ → String) (arr : List ℚ) (n i : Nat) : String :=
  if i < n then render (dget arr i) ++ " " ++ printFrom render arr n (i + 1) else ""
termination_by n - i
decreasing_by omega

/-- The printer of `main` (lines 81-84): the print loop over the whole
sequence followed by `endl`. -/
def printerOutput (render : ℚ → String) (arr : List ℚ) : String :=
  printFrom render arr arr.length 0 ++ "\n"

/-- Prompt printed before the first size read (line 42). -/
def promptSize1 : String := "How many would you want to place in the first array? (max 10): "

/-- Prompt printed before the second size read (line 52). -/
def promptSize2 : String := "How many would you want to place in the second array? (max 10): "

/-- Prompt printed before reading the elements (lines 45 and 55). -/
def promptEnter (k : Int) : String := "Enter " ++ toString k ++ " elements: "

/-- Label printed before the sorted sequence (line 80). -/
def printHeader : String := "Merged and sorted array: "

/-- Embeds `main` (lines 36-87) as a function from the token stream to the
full standard-output text and the exit code. `none` means the program is
still blocked reading input when the stream runs out. -/
def main_output (render : ℚ → String) (ts : List Token) : Option (String × Int) :=
  match getValidSize ts with
  | none => none
  | some (s1raw, ts1, e1) =>
    let size1 := clampSize s1raw
    match readNumbers size1.toNat ts1 with
    | none => none
    | some (a, ts2, e2) =>
      match getValidSize ts2 with
      | none => none
      | some (s2raw, ts3, e3) =>
        let size2 := clampSize s2raw
        match readNumbers size2.toNat ts3 with
        | none => none
        | some (b, _ts4, e4) =>
          let merged := copyFrom b size2.toNat 0 (copyFrom a size1.toNat 0 [])
          let n := merged.length
          let sorted := selSortLoop merged n 0
          some (bannerLine ++ promptSize1 ++ e1 ++ promptEnter size1 ++ e2 ++
                bannerLine ++ promptSize2 ++ e3 ++ promptEnter size2 ++ e4 ++
                bannerLine ++ printHeader ++ printFrom render sorted n 0 ++ "\n", 0)

/-- Written from the spec's words for claim C3: the maximum of the remaining
values, at positions `i .. n-1`. -/
def sliceMax (arr : List ℚ) (i n : Nat) : ℚ :=
  ((List.range' (i + 1) (n - (i + 1))).map (dget arr)).foldl max (dget arr i)

/-- Written from the spec's words for claim C3: the first position in
`i .. n-1` holding the maximum of the remaining values. -/
def specFirstMaxIndex (arr : List ℚ) (i n : Nat) : Nat :=
  (((List.range' i (n - i)).find? fun k => dget arr k == sliceMax arr i n).getD i)

/-- Written from the spec's words for claim C7: elements separated by a
single space, with no separator after the last element. -/
def specSepRender (render : ℚ → String) : List ℚ → String
  | [] => ""
  | [x] => render x
  | x :: xs => render x ++ " " ++ specSepRender render xs

/-! Basic facts about `dget`, `List.set` and `swapAt`. -/

lemma dget_eq_getElem {l : List ℚ} {i : Nat} (h : i < l.length) : dget l i = l[i] :=
  List.getD_eq_getElem l 0 h

lemma dget_eq_getElem?_getD (l : List ℚ) (i : Nat) : dget l i = l[i]?.getD 0 :=
  List.getD_eq_getElem?_getD l i 0

lemma dget_set_self {l : List ℚ} {i : Nat} (h : i < l.length) (x : ℚ) :
    dget (l.set i x) i = x := by
  rw [dget_eq_getElem?_getD, List.getElem?_set]
  simp [h]

lemma dget_set_ne {l : List ℚ} {i k : Nat} (h : i ≠ k) (x : ℚ) :
    dget (l.set i x) k = dget l k := by
  rw [dget_eq_getElem?_getD, dget_eq_getElem?_getD, List.getElem?_set]
  simp [h]

lemma set_dget_self {l : List ℚ} {i : Nat} (h : i < l.length) :
    l.set i (dget l i) = l := by
  apply List.ext_getElem?
  intro k
  rw [List.getElem?_set]
  rcases eq_or_ne i k with rfl | hne
  · simp [h, List.getElem?_eq_getElem h, dget_eq_getElem h]
  · simp [hne]

lemma length_swapAt (arr : List ℚ) (i j : Nat) :
    (swapAt arr i j).length = arr.length := by
  simp [swapAt]

lemma dget_swapAt_fst {arr : List ℚ} {i j : Nat} (hi : i < arr.length) :
    dget (swapAt arr i j) i = dget arr j := by
  unfold swapAt
  rcases eq_or_ne j i with rfl | hne
  · rw [dget_set_self (by simpa using hi)]
  · rw [dget_set_ne hne, dget_set_self hi]

lemma dget_swapAt_snd {arr : List ℚ} {i j : Nat} (hj : j < arr.length) :
    dget (swapAt arr i j) j = dget arr i := by
  unfold swapAt
  rw [dget_set_self (by simpa using hj)]

lemma dget_swapAt_other {arr : List ℚ} {i j k : Nat} (hki : k ≠ i) (hkj : k ≠ j) :
    dget (swapAt arr i j) k = dget arr k := by
  unfold swapAt
  rw [dget_set_ne (Ne.symm hkj), dget_set_ne (Ne.symm hki)]

lemma swapAt_self {arr : List ℚ} {i : Nat} (h : i < arr.length) :
    swapAt arr i i = arr := by
  unfold swapAt
  rw [List.set_set, set_dget_self h]

lemma swapAt_perm (arr : List ℚ) {i j : Nat} (hi : i < arr.length)
    (hj : j < arr.length) : (swapAt arr i j).Perm arr := by
  rw [List.perm_iff_count]
  intro b
  have hj1 : j < (arr.set i (dget arr j)).length := by simpa using hj
  have hset_j : (arr.set i (dget arr j))[j] = arr[j] := by
    rcases eq_or_ne i j with rfl | hne
    · rw [List.getElem_set_self hj1, dget_eq_getElem hi]
    · exact List.getElem_set_ne hne hj1
  have hci : arr[i] = b → 0 < List.count b arr := by
    intro he
    exact List.count_pos_iff.mpr (he ▸ List.getElem_mem hi)
  have hcj : arr[j] = b → 0 < List.count b arr := by
    intro he
    exact List.count_pos_iff.mpr (he ▸ List.getElem_mem hj)
  unfold swapAt
  rw [List.count_set _ _ _ _ hj1, List.count_set _ _ _ _ hi, hset_j,
    dget_eq_getElem hi, dget_eq_getElem hj]
  rcases eq_or_ne arr[i] b with he1 | he1 <;> rcases eq_or_ne arr[j] b with he2 | he2 <;>
    simp only [he1, he2, beq_iff_eq, beq_eq_false_iff_ne, if_pos, if_neg, ne_eq,
      not_false_eq_true, reduceIte] <;>
    [skip; skip; skip; skip] <;> first
    | (have h5 := hci he1; omega)
    | (have h5 := hcj he2; omega)
    | omega

/-! Specification of the inner scan: it returns an index of the maximum of
the values at the scanned positions, and on ties the earliest scanned
position, because the comparison is strict. -/

theorem scanMax_spec (arr : List ℚ) (n : Nat) (j mi : Nat) (hmi : mi < n) :
    (scanMax arr n mi j = mi ∨ (j ≤ scanMax arr n mi j ∧ scanMax arr n mi j < n)) ∧
    dget arr mi ≤ dget arr (scanMax arr n mi j) ∧
    (∀ k, j ≤ k → k < n → dget arr k ≤ dget arr (scanMax arr n mi j)) ∧
    (mi < j → ∀ k, k < scanMax arr n mi j → (k = mi ∨ (j ≤ k ∧ k < n)) →
      dget arr k < dget arr (scanMax arr n mi j)) := by
  by_cases hjn : j < n
  · rw [scanMax, if_pos hjn]
    by_cases c : dget arr j > dget arr mi
    · rw [if_pos c]
      obtain ⟨IH1, IH2, IH3, IH4⟩ := scanMax_spec arr n (j + 1) j hjn
      refine ⟨?_, le_trans (le_of_lt c) IH2, ?_, ?_⟩
      · rcases IH1 with h | ⟨h1, h2⟩
        · exact Or.inr ⟨le_of_eq h.symm, by rw [h]; exact hjn⟩
        · exact Or.inr ⟨le_trans (Nat.le_succ j) h1, h2⟩
      · intro k hjk hkn
        rcases eq_or_lt_of_le hjk with rfl | hlt
        · exact IH2
        · exact IH3 k hlt hkn
      · intro _hmj k hkr hcase
        rcases hcase with rfl | ⟨hjk, hkn⟩
        · exact lt_of_lt_of_le c IH2
        · rcases eq_or_lt_of_le hjk with rfl | hlt
          · exact IH4 (Nat.lt_succ_self j) j hkr (Or.inl rfl)
          · exact IH4 (Nat.lt_succ_self j) k hkr (Or.inr ⟨hlt, hkn⟩)
    · rw [if_neg c]
      have hc' : dget arr j ≤ dget arr mi := not_lt.mp c
      obtain ⟨IH1, IH2, IH3, IH4⟩ := scanMax_spec arr n (j + 1) mi hmi
      refine ⟨?_, IH2, ?_, ?_⟩
      · rcases IH1 with h | ⟨h1, h2⟩
        · exact Or.inl h
        · exact Or.inr ⟨le_trans (Nat.le_succ j) h1, h2⟩
      · intro k hjk hkn
        rcases eq_or_lt_of_le hjk with rfl | hlt
        · exact le_trans hc' IH2
        · exact IH3 k hlt hkn
      · intro hmj k hkr hcase
        have hmj1 : mi < j + 1 := Nat.lt_succ_of_lt hmj
        rcases hcase with rfl | ⟨hjk, hkn⟩
        · exact IH4 hmj1 k hkr (Or.inl rfl)
        · rcases eq_or_lt_of_le hjk with rfl | hlt
          · have hmr : mi < scanMax arr n mi (j + 1) := lt_trans hmj hkr
            exact lt_of_le_of_lt hc' (IH4 hmj1 mi hmr (Or.inl rfl))
          · exact IH4 hmj1 k hkr (Or.inr ⟨hlt, hkn⟩)
  · rw [scanMax, if_neg hjn]
    refine ⟨Or.inl rfl, le_rfl, ?_, ?_⟩
    · intro k h1 h2
      omega
    · intro hmj k hkr hcase
      rcases hcase with rfl | ⟨hjk, hkn⟩ <;> omega
termination_by n - j
decreasing_by all_goals omega

theorem scanMax_bounds (arr : List ℚ) {n i : Nat} (hi : i < n) :
    i ≤ scanMax arr n i (i + 1) ∧ scanMax arr n i (i + 1) < n := by
  obtain ⟨h1, -, -, -⟩ := scanMax_spec arr n (i + 1) i hi
  rcases h1 with h | ⟨h1, h2⟩
  · exact ⟨le_of_eq h.symm, by rw [h]; exact hi⟩
  · exact ⟨le_trans (Nat.le_succ i) h1, h2⟩

theorem scanMax_is_max (arr : List ℚ) {n i : Nat} (hi : i < n) :
    ∀ k, i ≤ k → k < n → dget arr k ≤ dget arr (scanMax arr n i (i + 1)) := by
  obtain ⟨-, h2, h3, -⟩ := scanMax_spec arr n (i + 1) i hi
  intro k hik hkn
  rcases eq_or_lt_of_le hik with rfl | hlt
  · exact h2
  · exact h3 k hlt hkn

theorem scanMax_strict_below (arr : List ℚ) {n i : Nat} (hi : i < n) :
    ∀ k, i ≤ k → k < scanMax arr n i (i + 1) →
      dget arr k < dget arr (scanMax arr n i (i + 1)) := by
  obtain ⟨-, -, -, h4⟩ := scanMax_spec arr n (i + 1) i hi
  intro k hik hkr
  have hrn : scanMax arr n i (i + 1) < n := (scanMax_bounds arr hi).2
  apply h4 (Nat.lt_succ_self i) k hkr
  rcases eq_or_lt_of_le hik with rfl | hlt
  · exact Or.inl rfl
  · exact Or.inr ⟨hlt, lt_trans hkr hrn⟩

/-! The outer loop: length preservation, permutation, and sortedness. -/

theorem length_selSortLoop (arr : List ℚ) (n i : Nat) :
    (selSortLoop arr n i).length = arr.length := by
  by_cases h : i < n - 1
  · rw [selSortLoop, if_pos h, length_selSortLoop, length_swapAt]
  · rw [selSortLoop, if_neg h]
termination_by n - 1 - i
decreasing_by omega

theorem selSortLoop_perm (arr : List ℚ) (n i : Nat) (hn : n ≤ arr.length) :
    (selSortLoop arr n i).Perm arr := by
  by_cases h : i < n - 1
  · rw [selSortLoop, if_pos h]
    have hi : i < n := by omega
    have hm : scanMax arr n i (i + 1) < n := (scanMax_bounds arr hi).2
    have hperm := swapAt_perm arr (lt_of_lt_of_le hi hn) (lt_of_lt_of_le hm hn)
    have hn' : n ≤ (swapAt arr i (scanMax arr n i (i + 1))).length := by
      rw [length_swapAt]; exact hn
    exact (selSortLoop_perm _ n (i + 1) hn').trans hperm
  · rw [selSortLoop, if_neg h]
termination_by n - 1 - i
decreasing_by omega

theorem selSortLoop_sorted_inv (arr : List ℚ) (n i : Nat) (hn : n = arr.length)
    (hpre : ∀ a b, a < b → b < i → dget arr b ≤ dget arr a)
    (hdom : ∀ a b, a < i → i ≤ b → b < n → dget arr b ≤ dget arr a) :
    ∀ a b, a < b → b < n →
      dget (selSortLoop arr n i) b ≤ dget (selSortLoop arr n i) a := by
  by_cases h : i < n - 1
  · rw [selSortLoop, if_pos h]
    have hi_n : i < n := by omega
    have him : i ≤ scanMax arr n i (i + 1) := (scanMax_bounds arr hi_n).1
    have hmn : scanMax arr n i (i + 1) < n := (scanMax_bounds arr hi_n).2
    have hi_len : i < arr.length := hn ▸ hi_n
    have hm_len : scanMax arr n i (i + 1) < arr.length := hn ▸ hmn
    have hfst : dget (swapAt arr i (scanMax arr n i (i + 1))) i
        = dget arr (scanMax arr n i (i + 1)) := dget_swapAt_fst hi_len
    have hsnd : dget (swapAt arr i (scanMax arr n i (i + 1))) (scanMax arr n i (i + 1))
        = dget arr i := dget_swapAt_snd hm_len
    have hoth : ∀ k, k ≠ i → k ≠ scanMax arr n i (i + 1) →
        dget (swapAt arr i (scanMax arr n i (i + 1))) k = dget arr k :=
      fun k h1 h2 => dget_swapAt_other h1 h2
    apply selSortLoop_sorted_inv _ n (i + 1)
    · rw [length_swapAt]; exact hn
    · intro a b hab hb
      have hb' : b ≤ i := by omega
      rcases eq_or_lt_of_le hb' with rfl | hbi
      · rw [hfst, hoth a (by omega) (by omega)]
        exact hdom a _ hab him hmn
      · rw [hoth a (by omega) (by omega), hoth b (by omega) (by omega)]
        exact hpre a b hab hbi
    · intro a b ha hb hbn
      have hb_i : b ≠ i := by omega
      have ha' : a ≤ i := by omega
      rcases eq_or_lt_of_le ha' with rfl | hai
      · rcases eq_or_ne b (scanMax arr n a (a + 1)) with rfl | hbm
        · rw [hsnd, hfst]
          exact scanMax_is_max arr hi_n a le_rfl hi_n
        · rw [hoth b hb_i hbm, hfst]
          exact scanMax_is_max arr hi_n b (by omega) hbn
      · rcases eq_or_ne b (scanMax arr n i (i + 1)) with rfl | hbm
        · rw [hsnd, hoth a (by omega) (by omega)]
          exact hdom a i hai le_rfl hi_n
        · rw [hoth b hb_i hbm, hoth a (by omega) (by omega)]
          exact hdom a b hai (by omega) hbn
  · rw [selSortLoop, if_neg h]
    intro a b hab hbn
    have hb' : b ≤ i := by omega
    rcases eq_or_lt_of_le hb' with rfl | hbi
    · exact hdom a b hab le_rfl hbn
    · exact hpre a b hab hbi
termination_by n - 1 - i
decreasing_by omega

/-! When the sequence is already non-increasing, the scan keeps
`maxIndex = i` and every swap is a self-swap. -/

theorem scanMax_eq_of_le (arr : List ℚ) (n j mi : Nat)
    (h : ∀ k, j ≤ k → k < n → dget arr k ≤ dget arr mi) :
    scanMax arr n mi j = mi := by
  by_cases hjn : j < n
  · rw [scanMax, if_pos hjn]
    have hj : ¬ (dget arr j > dget arr mi) := not_lt.mpr (h j le_rfl hjn)
    rw [if_neg hj]
    exact scanMax_eq_of_le arr n (j + 1) mi (fun k hk hkn => h k (by omega) hkn)
  · rw [scanMax, if_neg hjn]
termination_by n - j
decreasing_by omega

theorem selSortLoop_eq_of_sorted (arr : List ℚ) (n i : Nat) (hn : n = arr.length)
    (hsort : ∀ a b, a < b → b < n → dget arr b ≤ dget arr a) :
    selSortLoop arr n i = arr := by
  by_cases h : i < n - 1
  · rw [selSortLoop, if_pos h]
    have hi_n : i < n := by omega
    have hm : scanMax arr n i (i + 1) = i :=
      scanMax_eq_of_le arr n (i + 1) i (fun k hk hkn => hsort i k (by omega) hkn)
    rw [hm, swapAt_self (hn ▸ hi_n)]
    exact selSortLoop_eq_of_sorted arr n (i + 1) hn hsort
  · rw [selSortLoop, if_neg h]
termination_by n - 1 - i
decreasing_by omega

/-! The concatenation loops. -/

theorem copyFrom_eq (src : List ℚ) (sz i : Nat) (dst : List ℚ) (hsz : sz ≤ src.length) :
    copyFrom src sz i dst = dst ++ (src.take sz).drop i := by
  by_cases h : i < sz
  · rw [copyFrom, if_pos h, copyFrom_eq src sz (i + 1) _ hsz]
    have hlen : i < (src.take sz).length := by
      rw [List.length_take]; omega
    rw [List.drop_eq_getElem_cons hlen, List.getElem_take, dget_eq_getElem (by omega)]
    simp [List.append_assoc]
  · rw [copyFrom, if_neg h]
    have hnil : (src.take sz).drop i = [] :=
      List.drop_eq_nil_of_le (by rw [List.length_take]; omega)
    rw [hnil, List.append_nil]
termination_by sz - i
decreasing_by omega

theorem mergedArray_eq (a b : List ℚ) :
    copyFrom b b.length 0 (copyFrom a a.length 0 []) = a ++ b := by
  rw [copyFrom_eq a a.length 0 [] le_rfl, copyFrom_eq b b.length 0 _ le_rfl]
  simp

/-! The input collectors. -/

theorem getValidSize_pos :
    ∀ (ts : List Token) (v : Int) (rest : List Token) (out : String),
      getValidSize ts = some (v, rest, out) → 0 < v := by
  intro ts
  induction ts with
  | nil =>
    intro v rest out h
    simp [getValidSize] at h
  | cons t rest ih =>
    intro v r out h
    rw [getValidSize] at h
    split at h
    · rw [Option.map_eq_some'] at h
      obtain ⟨⟨v'', r'', o''⟩, hrec, heq⟩ := h
      simp only [Prod.mk.injEq] at heq
      obtain ⟨rfl, rfl, -⟩ := heq
      exact ih v'' r'' o'' hrec
    · split at h
      · rw [Option.map_eq_some'] at h
        obtain ⟨⟨v'', r'', o''⟩, hrec, heq⟩ := h
        simp only [Prod.mk.injEq] at heq
        obtain ⟨rfl, rfl, -⟩ := heq
        exact ih v'' r'' o'' hrec
      · next hv =>
        simp only [Option.some.injEq, Prod.mk.injEq] at h
        obtain ⟨rfl, -, -⟩ := h
        omega

theorem getValidSize_skip (t : Token) (ts : List Token)
    (h : t.asInt = none ∨ ∃ v, t.asInt = some v ∧ v ≤ 0) :
    getValidSize (t :: ts) =
      (getValidSize ts).map fun r => (r.1, r.2.1, sizeRetryPrompt ++ r.2.2) := by
  rcases h with h | ⟨v, hv, hv0⟩
  · rw [getValidSize, h]
  · rw [getValidSize, hv]
    simp only [if_pos hv0]

theorem getValidSize_accept (t : Token) (ts : List Token) (v : Int)
    (hv : t.asInt = some v) (hpos : 0 < v) :
    getValidSize (t :: ts) = some (v, ts, "") := by
  rw [getValidSize, hv]
  simp only [if_neg (by omega : ¬ v ≤ 0)]

theorem readNumbers_length :
    ∀ (k : Nat) (ts : List Token) (xs : List ℚ) (r : List Token) (out : String),
      readNumbers k ts = some (xs, r, out) → xs.length = k := by
  intro k
  induction k with
  | zero =>
    intro ts xs r out h
    obtain ⟨rfl, rfl, rfl⟩ : [] = xs ∧ ts = r ∧ "" = out := by
      simpa [readNumbers] using h
    rfl
  | succ k ih =>
    intro ts xs r out h
    rw [readNumbers] at h
    split at h
    · simp at h
    · split at h
      · simp at h
      · next xs' ts2 o2 hr =>
        simp only [Option.some.injEq, Prod.mk.injEq] at h
        obtain ⟨rfl, -, -⟩ := h
        have := ih _ _ _ _ hr
        simp only [List.length_cons]
        omega

/-! The print loop. -/

theorem printFrom_eq_sep (render : ℚ → String) (arr : List ℚ) (i : Nat) :
    printFrom render arr arr.length i =
      specSepRender render (arr.drop i) ++ (if (arr.drop i).isEmpty then "" else " ") := by
  by_cases h : i < arr.length
  · rw [printFrom, if_pos h, printFrom_eq_sep render arr (i + 1), dget_eq_getElem h,
      List.drop_eq_getElem_cons h]
    cases hd : arr.drop (i + 1) with
    | nil => simp [specSepRender, String.append_empty]
    | cons y ys => simp [specSepRender, String.append_assoc]
  · rw [printFrom, if_neg h]
    rw [List.drop_eq_nil_of_le (by omega)]
    simp [specSepRender]
termination_by arr.length - i
decreasing_by omega

/-! The spec-side description of the scan: maximum of a slice, first
occurrence. -/

lemma le_foldl_max (L : List ℚ) : ∀ a b : ℚ, b ≤ a → b ≤ L.foldl max a := by
  induction L with
  | nil => intro a b h; exact h
  | cons x L ih =>
    intro a b h
    exact ih (max a x) b (le_trans h (le_max_left a x))

lemma mem_le_foldl_max (L : List ℚ) : ∀ a x : ℚ, x ∈ L → x ≤ L.foldl max a := by
  induction L with
  | nil => intro a x h; cases h
  | cons y L ih =>
    intro a x h
    rcases List.mem_cons.mp h with rfl | h
    · exact le_foldl_max L (max a x) x (le_max_right a x)
    · exact ih (max a y) x h

lemma foldl_max_le (L : List ℚ) :
    ∀ a c : ℚ, a ≤ c → (∀ x ∈ L, x ≤ c) → L.foldl max a ≤ c := by
  induction L with
  | nil => intro a c h _; exact h
  | cons y L ih =>
    intro a c ha h
    exact ih (max a y) c (max_le ha (h y (List.mem_cons_self y L)))
      fun x hx => h x (List.mem_cons_of_mem y hx)

lemma find?_range'_eq_some (p : Nat → Bool) :
    ∀ (len s r : Nat), s ≤ r → r < s + len → p r = true →
      (∀ k, s ≤ k → k < r → p k = false) →
      (List.range' s len).find? p = some r := by
  intro len
  induction len with
  | zero =>
    intro s r h1 h2 _ _
    exact absurd h2 (by omega)
  | succ len ih =>
    intro s r h1 h2 hp hbelow
    rw [List.range'_succ]
    rcases eq_or_lt_of_le h1 with rfl | hlt
    · simp [List.find?_cons, hp]
    · have hps : p s = false := hbelow s le_rfl hlt
      simp only [List.find?_cons, hps]
      exact ih (s + 1) r hlt (by omega) hp fun k hk1 hk2 => hbelow k (by omega) hk2

theorem sliceMax_eq (arr : List ℚ) (i n : Nat) (hi : i < n) :
    sliceMax arr i n = dget arr (scanMax arr n i (i + 1)) := by
  have hmax := scanMax_is_max arr hi
  have hb := scanMax_bounds arr hi
  apply le_antisymm
  · apply foldl_max_le
    · exact hmax i le_rfl hi
    · intro x hx
      simp only [List.mem_map] at hx
      obtain ⟨k, hk, rfl⟩ := hx
      rw [List.mem_range'_1] at hk
      exact hmax k (by omega) (by omega)
  · rcases eq_or_lt_of_le hb.1 with heq | hlt
    · rw [← heq]
      exact le_foldl_max _ _ _ le_rfl
    · apply mem_le_foldl_max
      simp only [List.mem_map]
      refine ⟨scanMax arr n i (i + 1), ?_, rfl⟩
      rw [List.mem_range'_1]
      have := hb.2
      omega

theorem scanMax_eq_specFirstMaxIndex (arr : List ℚ) (i n : Nat) (hi : i < n) :
    scanMax arr n i (i + 1) = specFirstMaxIndex arr i n := by
  have hb := scanMax_bounds arr hi
  have hstrict := scanMax_strict_below arr hi
  have hslice := sliceMax_eq arr i n hi
  have hfind : (List.range' i (n - i)).find?
      (fun k => dget arr k == sliceMax arr i n) = some (scanMax arr n i (i + 1)) := by
    apply find?_range'_eq_some _ _ _ _ hb.1
    · have := hb.2
      omega
    · simp only [beq_iff_eq]
      exact hslice.symm
    · intro k hk1 hk2
      simp only [beq_eq_false_iff_ne, ne_eq, hslice]
      exact ne_of_lt (hstrict k hk1 hk2)
  unfold specFirstMaxIndex
  rw [hfind]
  rfl

/-! Claim theorems. -/

/-- C1: for every merged sequence, after the selection sort the sequence is
non-increasing: every element is greater than or equal to the next one. -/
theorem C1_sort_nonincreasing (arr : List ℚ) :
    List.Sorted (fun a b => a ≥ b) (sortDescending arr) := by
  unfold sortDescending
  have h := selSortLoop_sorted_inv arr arr.length 0 rfl
    (fun a b _ hb => absurd hb (Nat.not_lt_zero b))
    (fun a b ha _ _ => absurd ha (Nat.not_lt_zero a))
  have hlen := length_selSortLoop arr arr.length 0
  show List.Pairwise _ _
  rw [List.pairwise_iff_getElem]
  intro a b ha hb hab
  have hba := h a b hab (by omega)
  rw [dget_eq_getElem ha, dget_eq_getElem hb] at hba
  exact hba

/-- C2: the sorted merged sequence is a permutation of the concatenation of
the two entered sequences, so the multiset of printed values equals the
multiset of entered values. -/
theorem C2_sort_perm (a b : List ℚ) :
    (sortDescending (copyFrom b b.length 0 (copyFrom a a.length 0 []))).Perm (a ++ b) := by
  rw [mergedArray_eq]
  exact selSortLoop_perm (a ++ b) (a ++ b).length 0 le_rfl

/-- C3: at each outer iteration `i < n - 1` the scan, which uses a strict
greater-than comparison, returns exactly the first position in `i .. n-1`
holding the maximum of the remaining values, and the loop body swaps
positions `i` and that index. -/
theorem C3_step_follows_spec (arr : List ℚ) (n i : Nat) (hn : n = arr.length)
    (hi : i < n - 1) :
    scanMax arr n i (i + 1) = specFirstMaxIndex arr i n ∧
    selSortLoop arr n i = selSortLoop (swapAt arr i (scanMax arr n i (i + 1))) n (i + 1) := by
  constructor
  · exact scanMax_eq_specFirstMaxIndex arr i n (by omega)
  · rw [selSortLoop, if_pos hi]

/-- Witness for C3 at the concrete merged sequence of the spec's example. -/
theorem C3_step_follows_spec_witness :
    ((5 : Nat) = ([1, 5, 3, 2, 2] : List ℚ).length ∧ (0 : Nat) < 5 - 1) ∧
    (scanMax [1, 5, 3, 2, 2] 5 0 1 = specFirstMaxIndex [1, 5, 3, 2, 2] 0 5 ∧
      selSortLoop [1, 5, 3, 2, 2] 5 0 =
        selSortLoop (swapAt [1, 5, 3, 2, 2] 0 (scanMax [1, 5, 3, 2, 2] 5 0 1)) 5 1) :=
  ⟨⟨rfl, by decide⟩, C3_step_follows_spec [1, 5, 3, 2, 2] 5 0 rfl (by decide)⟩

/-- C4: the concatenation loops produce the first sequence's elements in
order followed by the second sequence's elements in order, and the length of
the result is the sum of the lengths. -/
theorem C4_concat (a b : List ℚ) :
    copyFrom b b.length 0 (copyFrom a a.length 0 []) = a ++ b ∧
    (copyFrom b b.length 0 (copyFrom a a.length 0 [])).length = a.length + b.length := by
  refine ⟨mergedArray_eq a b, ?_⟩
  rw [mergedArray_eq, List.length_append]

/-- C9: on a sequence that is already non-increasing the sort is the
identity, and every inner scan returns `maxIndex = i`, so every swap the
loop performs is a self-swap. -/
theorem C9_idempotent (arr : List ℚ) (h : List.Sorted (fun a b => a ≥ b) arr) :
    sortDescending arr = arr ∧
    ∀ i, i < arr.length - 1 → scanMax arr arr.length i (i + 1) = i := by
  have hd : ∀ a b, a < b → b < arr.length → dget arr b ≤ dget arr a := by
    intro a b hab hb
    have hp := List.pairwise_iff_getElem.mp h a b (by omega) hb hab
    rw [dget_eq_getElem (by omega : a < arr.length), dget_eq_getElem hb]
    exact hp
  constructor
  · exact selSortLoop_eq_of_sorted arr arr.length 0 rfl hd
  · intro i hi
    exact scanMax_eq_of_le arr arr.length (i + 1) i
      fun k hk hkn => hd i k (by omega) hkn

/-- Witness for C9 at a concrete non-increasing sequence with a tie. -/
theorem C9_idempotent_witness :
    List.Sorted (fun a b => a ≥ b) ([3, 2, 2] : List ℚ) ∧
    (sortDescending [3, 2, 2] = ([3, 2, 2] : List ℚ) ∧
      ∀ i, i < ([3, 2, 2] : List ℚ).length - 1 →
        scanMax [3, 2, 2] ([3, 2, 2] : List ℚ).length i (i + 1) = i) :=
  ⟨by decide, C9_idempotent [3, 2, 2] (by decide)⟩

/-- C5: a requested first-array size strictly greater than 10 makes the
program behave exactly as a request of 10 does; the clamp sends every
positive value into the range 1..10; and the element reader produces exactly
the clamped number of elements. -/
theorem C5_clamp (render : ℚ → String) (s : Int) (t : Token) (rest : List Token)
    (hs : t.asInt = some s) (h10 : s > 10) :
    main_output render (t :: rest) =
      main_output render (Token.mk (some 10) t.asDouble :: rest) ∧
    clampSize s = clampSize 10 ∧
    (∀ v : Int, 0 < v → 1 ≤ clampSize v ∧ clampSize v ≤ 10) ∧
    (∀ (k : Nat) (ts : List Token) (xs : List ℚ) (r : List Token) (out : String),
      readNumbers k ts = some (xs, r, out) → xs.length = k) := by
  have hacc1 : getValidSize (t :: rest) = some (s, rest, "") :=
    getValidSize_accept t rest s hs (by omega)
  have hacc2 : getValidSize (Token.mk (some 10) t.asDouble :: rest) =
      some ((10 : Int), rest, "") :=
    getValidSize_accept _ rest 10 rfl (by omega)
  have hclamp : clampSize s = 10 := if_pos h10
  have hclamp10 : clampSize (10 : Int) = 10 := by
    simp [clampSize]
  refine ⟨?_, by rw [hclamp, hclamp10], ?_, readNumbers_length⟩
  · rw [main_output, main_output, hacc1, hacc2]
    simp only [hclamp, hclamp10]
  · intro v hv
    refine ⟨?_, ?_⟩ <;> · unfold clampSize; split <;> omega

/-- Witness for C5 at the concrete oversized request 11. -/
theorem C5_clamp_witness :
    (Token.mk (some 11) none).asInt = some 11 ∧ (11 : Int) > 10 ∧
    (main_output (fun _ => "") [Token.mk (some 11) none] =
        main_output (fun _ => "") [Token.mk (some 10) none] ∧
      clampSize 11 = clampSize 10 ∧
      (∀ v : Int, 0 < v → 1 ≤ clampSize v ∧ clampSize v ≤ 10) ∧
      (∀ (k : Nat) (ts : List Token) (xs : List ℚ) (r : List Token) (out : String),
        readNumbers k ts = some (xs, r, out) → xs.length = k)) :=
  ⟨rfl, by decide, C5_clamp (fun _ => "") 11 (Token.mk (some 11) none) [] rfl (by decide)⟩

/-- C6: the size collector only ever returns a positive value; a token that
fails to parse or is non-positive is discarded with a retry prompt and
reading continues; a positive parsed token is returned at once. -/
theorem C6_size_collector :
    (∀ (ts : List Token) (v : Int) (rest : List Token) (out : String),
        getValidSize ts = some (v, rest, out) → 0 < v) ∧
    (∀ (t : Token) (ts : List Token),
        (t.asInt = none ∨ ∃ v, t.asInt = some v ∧ v ≤ 0) →
        getValidSize (t :: ts) =
          (getValidSize ts).map fun r => (r.1, r.2.1, sizeRetryPrompt ++ r.2.2)) ∧
    (∀ (t : Token) (ts : List Token) (v : Int), t.asInt = some v → 0 < v →
        getValidSize (t :: ts) = some (v, ts, "")) :=
  ⟨getValidSize_pos, getValidSize_skip, getValidSize_accept⟩

/-- Witness for C6: the positive value 3 is accepted at once. -/
theorem C6_size_collector_witness :
    (Token.mk (some 3) none).asInt = some 3 ∧ (0 : Int) < 3 ∧
    getValidSize [Token.mk (some 3) none] = some (3, [], "") :=
  ⟨rfl, by decide, C6_size_collector.2.2 (Token.mk (some 3) none) [] 3 rfl (by decide)⟩

/-- C7 counterexample: the print loop writes a space after every element,
the last one included, so on the one-element sequence the output is not
"element, newline" but "element, space, newline". -/
theorem C7_counterexample :
    printerOutput (fun _ => "1") [1] ≠ specSepRender (fun _ => "1") [1] ++ "\n" := by
  have h1 : printerOutput (fun _ => "1") [1] = "1 \n" := by
    simp [printerOutput, printFrom, dget]
  rw [h1]
  decide

/-- C7 amended: the printer writes each element followed by one space (the
last element included, so a trailing space precedes the newline), then a
newline. -/
theorem C7_amended (render : ℚ → String) (arr : List ℚ) :
    printerOutput render arr =
      specSepRender render arr ++ (if arr.isEmpty then "" else " ") ++ "\n" := by
  unfold printerOutput
  rw [printFrom_eq_sep render arr 0, List.drop_zero]

/-- C8: on the spec's example, concatenating A = [1, 5, 3] and B = [2, 2]
gives [1, 5, 3, 2, 2], and the sort outputs the values 5 3 2 2 1 in that
order. -/
theorem C8_example :
    copyFrom [2, 2] 2 0 (copyFrom [1, 5, 3] 3 0 []) = ([1, 5, 3, 2, 2] : List ℚ) ∧
    sortDescending [1, 5, 3, 2, 2] = ([5, 3, 2, 2, 1] : List ℚ) := by
  constructor
  · simp [copyFrom, dget]
  · simp [sortDescending, selSortLoop, scanMax, swapAt, dget]
    norm_num [List.set]

/-- C10: the whole program is a deterministic function of the input token
stream, and whenever a run completes its exit code is 0. -/
theorem C10_deterministic (render : ℚ → String) (ts₁ ts₂ : List Token)
    (h : ts₁ = ts₂) :
    main_output render ts₁ = main_output render ts₂ ∧
    ∀ out code, main_output render ts₁ = some (out, code) → code = 0 := by
  subst h
  refine ⟨rfl, ?_⟩
  intro out code hsome
  rw [main_output] at hsome
  split at hsome
  · simp at hsome
  · dsimp only at hsome
    split at hsome
    · simp at hsome
    · split at hsome
      · simp at hsome
      · split at hsome
        · simp at hsome
        · simp only [Option.some.injEq, Prod.mk.injEq] at hsome
          exact hsome.2.symm

/-- Witness for C10 at a concrete complete run. -/
theorem C10_deterministic_witness :
    ([Token.mk (some 1) none, Token.mk none (some 7), Token.mk (some 1) none,
        Token.mk none (some 3)] =
      [Token.mk (some 1) none, Token.mk none (some 7), Token.mk (some 1) none,
        Token.mk none (some 3)]) ∧
    (main_output (fun _ => "x") [Token.mk (some 1) none, Token.mk none (some 7),
          Token.mk (some 1) none, Token.mk none (some 3)] =
        main_output (fun _ => "x") [Token.mk (some 1) none, Token.mk none (some 7),
          Token.mk (some 1) none, Token.mk none (some 3)] ∧
      ∀ out code,
        main_output (fun _ => "x") [Token.mk (some 1) none, Token.mk none (some 7),
          Token.mk (some 1) none, Token.mk none (some 3)] = some (out, code) →
        code = 0) :=
  ⟨rfl, C10_deterministic (fun _ => "x") _ _ rfl⟩

end NarioJ
